import Mathlib

/-
Verification of the version-requirement resolution and multi-study
composition logic of the arcana repository.

The requirement side embeds `Requirement` from arcana/requirement/base.py:
`later_or_equal_version`, `valid_version`, `best_version` and
`best_requirement`.  The multi-study side embeds `SubStudySpec` and
`MultiStudyMetaClass.__new__` from arcana/study/multi.py.  Python dicts are
embedded as insertion-ordered association lists with string keys; Python
exceptions are embedded as explicit error values carrying structured
payloads.
-/

set_option maxRecDepth 4000

namespace Arcana

/-- A component of a parsed version tuple: Python ints or strings
("tuples of heterogeneous parts", arcana/requirement/base.py docstrings). -/
inductive VPart where
  | num (i : Int)
  | str (s : String)
deriving DecidableEq, Repr

/-- Python exceptions raised by the requirement-resolution code
(arcana/requirement/base.py), with structured payloads in place of formatted
message strings.  `versionParse`, `noCompatibleVersion` and `aggregate` model
`ArcanaRequirementVersionException` raises; `typeMismatch` (base.py:130) and
`incompatibleActive` (base.py:163) model `ArcanaError` raises; `keyError`
models a raw Python `KeyError` from a dict lookup. -/
inductive PyErr where
  | versionParse (s : String)
  | noCompatibleVersion (name : String) (min_ver : List VPart)
      (max_ver : Option (List VPart)) (available : List String)
  | typeMismatch (v r : VPart)
  | incompatibleActive (name : String) (version : String)
  | keyError (key : String)
  | aggregate (errs : List PyErr)

/-- Which exceptions are `ArcanaRequirementVersionException`s: exactly these
are caught per alternative by `Requirement.best_requirement` (base.py:179). -/
def PyErr.isVersionExc : PyErr → Bool
  | .versionParse _ => true
  | .noCompatibleVersion _ _ _ _ => true
  | .aggregate _ => true
  | _ => false

/-- `Requirement` (arcana/requirement/base.py:17): `__init__` stores the name
lower-cased and the min/max version tuples.  (The max-not-less-than-min check
performed at construction is not used by the operations below.) -/
structure Requirement where
  name : String
  min_ver : List VPart
  max_ver : Option (List VPart)

/-- A Python dict lookup `d[k]` over a dict embedded as an insertion-ordered
association list. -/
def dlookup {α : Type} : List (String × α) → String → Option α
  | [], _ => none
  | (k, v) :: rest, key => if k = key then some v else dlookup rest key

/-- Splits a character list on the dot separator (helper for the modelled
version parser). -/
def splitDots : List Char → List (List Char)
  | [] => [[]]
  | c :: rest =>
      match splitDots rest with
      | [] => [[c]]
      | g :: gs => if c = '.' then [] :: g :: gs else (c :: g) :: gs

/-- Numeric value of a decimal digit character. -/
def charDigit (c : Char) : Nat := c.toNat - 48

/-- Decimal value of a digit string. -/
def digitsToNat (cs : List Char) : Nat :=
  cs.foldl (fun a c => a * 10 + charDigit c) 0

/-- One component of a version string: a non-empty run of decimal digits
parses as a numeric part, anything else fails. -/
def parsePart (cs : List Char) : Option VPart :=
  if cs ≠ [] ∧ cs.all Char.isDigit then some (VPart.num (digitsToNat cs))
  else none

/-- Parses every dot-separated component, failing if any fails. -/
def parseParts : List (List Char) → Option (List VPart)
  | [] => some []
  | g :: gs =>
      match parsePart g with
      | none => none
      | some p =>
          match parseParts gs with
          | none => none
          | some ps => some (p :: ps)

/-- Modelled from the spec: the default version parser `split_version`
(imported at arcana/requirement/base.py:9 from `.utils`, whose source file is
absent from the repository snapshot).  Per the spec it splits a version
string into a tuple of major/minor/micro parts and signals a recoverable
parse error when the string cannot be parsed; dotted decimal strings such as
"1.5" parse into numeric parts. -/
def split_version (s : String) : Except PyErr (List VPart) :=
  match parseParts (splitDots s.data) with
  | some parts => .ok parts
  | none => .error (.versionParse s)

/-- Pairs a leftover suffix of the left tuple with the int-`0` filler. -/
def padRight : List VPart → List (VPart × VPart)
  | [] => []
  | v :: vs => (v, .num 0) :: padRight vs

/-- Pairs the int-`0` filler with a leftover suffix of the right tuple. -/
def padLeft : List VPart → List (VPart × VPart)
  | [] => []
  | r :: rs => (.num 0, r) :: padLeft rs

/-- `itertools.zip_longest(version, reference, fillvalue=0)` as used at
arcana/requirement/base.py:128: the shorter tuple is padded with the Python
int `0`. -/
def zipLongest0 : List VPart → List VPart → List (VPart × VPart)
  | [], rs => padLeft rs
  | v :: vs, [] => (v, .num 0) :: padRight vs
  | v :: vs, r :: rs => (v, r) :: zipLongest0 vs rs

/-- `type(v_part) == type(r_part)` for version parts (base.py:129). -/
def samePartType : VPart → VPart → Bool
  | .num _, .num _ => true
  | .str _, .str _ => true
  | _, _ => false

/-- Python `<` on strings: lexicographic comparison of the code points. -/
def charListLt : List Char → List Char → Bool
  | [], [] => false
  | [], _ :: _ => true
  | _ :: _, [] => false
  | a :: as1, b :: bs =>
      if a < b then true
      else if b < a then false
      else charListLt as1 bs

/-- `v_part < r_part` on same-typed version parts (Python int and str
comparison). -/
def partLt : VPart → VPart → Bool
  | .num a, .num b => decide (a < b)
  | .str a, .str b => charListLt a.data b.data
  | _, _ => false

/-- `v_part > r_part` on same-typed version parts. -/
def partGt (v r : VPart) : Bool := partLt r v

/-- The loop body of `Requirement.later_or_equal_version`
(arcana/requirement/base.py:128-138): walk the zipped pairs left to right;
a type mismatch raises `ArcanaError`; the first strictly ordered pair
decides; if the loop ends, return True. -/
def leqLoop : List (VPart × VPart) → Except PyErr Bool
  | [] => .ok true
  | (v, r) :: rest =>
      if samePartType v r then
        if partGt v r then .ok true
        else if partLt v r then .ok false
        else leqLoop rest
      else .error (.typeMismatch v r)

/-- `Requirement.later_or_equal_version(version, reference)`
(arcana/requirement/base.py:126-138). -/
def later_or_equal_version (version reference : List VPart) : Except PyErr Bool :=
  leqLoop (zipLongest0 version reference)

/-- `Requirement.valid_version(version)` (arcana/requirement/base.py:121-124):
`later_or_equal_version(version, min) and (max is None or
later_or_equal_version(max, version))`, with Python's short-circuit `and`.
The same expression appears inline in `best_version` (base.py:102-104). -/
def valid_version (req : Requirement) (v : List VPart) : Except PyErr Bool :=
  match later_or_equal_version v req.min_ver with
  | .error e => .error e
  | .ok false => .ok false
  | .ok true =>
      match req.max_ver with
      | none => .ok true
      | some m => later_or_equal_version m v

/-- The loop of `Requirement.best_version` (arcana/requirement/base.py:96-107):
`best` holds the best `(ver, v_parts)` seen so far; a candidate whose parse
raises the (recoverable) version exception is skipped; a compatible candidate
replaces `best` when `best` is None or the candidate's parts are
later-or-equal. -/
def bvLoop (req : Requirement) :
    List String → Option (String × List VPart) →
    Except PyErr (Option (String × List VPart))
  | [], best => .ok best
  | ver :: rest, best =>
      match split_version ver with
      | .error _ => bvLoop req rest best
      | .ok v_parts =>
          match valid_version req v_parts with
          | .error e => .error e
          | .ok false => bvLoop req rest best
          | .ok true =>
              match best with
              | none => bvLoop req rest (some (ver, v_parts))
              | some b =>
                  match later_or_equal_version v_parts b.2 with
                  | .error e => .error e
                  | .ok true => bvLoop req rest (some (ver, v_parts))
                  | .ok false => bvLoop req rest best

/-- `Requirement.best_version(available_versions)`
(arcana/requirement/base.py:87-119): run the selection loop; if nothing was
selected raise `ArcanaRequirementVersionException` carrying the requirement's
name, range and the full candidate list (base.py:108-118). -/
def best_version (req : Requirement) (available : List String) : Except PyErr String :=
  match bvLoop req available none with
  | .error e => .error e
  | .ok none => .error (.noCompatibleVersion req.name req.min_ver req.max_ver available)
  | .ok (some b) => .ok b.1

/-- The loop of `Requirement.best_requirement`
(arcana/requirement/base.py:155-184), accumulating the version exceptions
recorded so far (in reverse).  For each alternative: if the preloaded dict
has the name, parse and check the active version, returning it when valid
and raising `ArcanaError` otherwise; on a preloaded-dict `KeyError`, index
`available_modules` (an absent name raises a raw `KeyError` that nothing
catches) and call `best_version`, recording only
`ArcanaRequirementVersionException`s and trying the next alternative. -/
def brLoop (available : List (String × List String))
    (preloaded : List (String × String)) :
    List Requirement → List PyErr → Except PyErr (String × String)
  | [], excs => .error (.aggregate excs.reverse)
  | req :: rest, excs =>
      match dlookup preloaded req.name with
      | some version =>
          match split_version version with
          | .error e => .error e
          | .ok parts =>
              match valid_version req parts with
              | .error e => .error e
              | .ok true => .ok (req.name, version)
              | .ok false => .error (.incompatibleActive req.name version)
      | none =>
          match dlookup available req.name with
          | none => .error (.keyError req.name)
          | some vers =>
              match best_version req vers with
              | .ok bv => .ok (req.name, bv)
              | .error e =>
                  if e.isVersionExc then brLoop available preloaded rest (e :: excs)
                  else .error e

/-- `Requirement.best_requirement(possible_requirements, available_modules,
preloaded_modules)` (arcana/requirement/base.py:140-184).  (The singleton
wrapping of a bare `Requirement` at base.py:147-148 is handled by the list
type here.) -/
def best_requirement (reqs : List Requirement)
    (available : List (String × List String))
    (preloaded : List (String × String)) : Except PyErr (String × String) :=
  brLoop available preloaded reqs []

/-- All zipped pairs have equal components. -/
def eqPairs (ps : List (VPart × VPart)) : Bool :=
  ps.all fun p => decide (p.1 = p.2)

/-- Whether a version part is a Python int. -/
def VPart.isNum : VPart → Bool
  | .num _ => true
  | .str _ => false

/-- All parts of the tuple are Python ints. -/
def vAllNum (l : List VPart) : Bool := l.all VPart.isNum

/-- Both bounds of the requirement consist of int parts only. -/
def reqAllNum (req : Requirement) : Bool :=
  vAllNum req.min_ver &&
    (match req.max_ver with
     | none => true
     | some m => vAllNum m)

/-- The underlying integers of an all-numeric tuple. -/
def toInts (l : List VPart) : List Int :=
  l.map fun p => match p with
    | .num i => i
    | .str _ => 0

/-- Greater-or-equal under the component-wise ordering with 0-padding,
restricted to integer components. -/
def ige : List Int → List Int → Bool
  | [], [] => true
  | [], b :: bs => if 0 > b then true else if 0 < b then false else ige [] bs
  | a :: as1, [] => if a > 0 then true else if a < 0 then false else ige as1 []
  | a :: as1, b :: bs => if a > b then true else if a < b then false else ige as1 bs

/-- Head of an integer list, reading the 0-padding beyond the end. -/
def hd0 : List Int → Int
  | [] => 0
  | a :: _ => a

/-- Tail of an integer list, with the empty list fixed. -/
def tl0 : List Int → List Int
  | [] => []
  | _ :: t => t

/-- The compatibility test of `best_version`/`valid_version` on the numeric
fragment, as a boolean. -/
def boolValid (req : Requirement) (p : List VPart) : Bool :=
  ige (toInts p) (toInts req.min_ver) &&
    (match req.max_ver with
     | none => true
     | some m => ige (toInts m) (toInts p))

/-- The candidate held in `best` (when any) parses to its recorded parts and
passed the compatibility test. -/
def BestOk (req : Requirement) : Option (String × List VPart) → Prop
  | none => True
  | some b => split_version b.1 = .ok b.2 ∧ valid_version req b.2 = .ok true

/-! ### Multi-study composition (arcana/study/multi.py)

Python dicts (`_data_specs`, `_param_specs`, `_sub_study_specs`, name maps)
are embedded as insertion-ordered association lists with unique keys;
`dinsert` is `d[k] = v` (replace in place, append when new) and `dupdate`
is `d.update(kvs)`. -/

/-- `dict.keys()` in insertion order. -/
def dkeys {α : Type} (d : List (String × α)) : List String := d.map Prod.fst

/-- `dict.values()` in insertion order. -/
def dvalues {α : Type} (d : List (String × α)) : List α := d.map Prod.snd

/-- `d[k] = v`: replace the value in place when the key exists, append
otherwise. -/
def dinsert {α : Type} : List (String × α) → String → α → List (String × α)
  | [], key, val => [(key, val)]
  | (k, v) :: rest, key, val =>
      if k = key then (k, val) :: rest else (k, v) :: dinsert rest key val

/-- `d.update(kvs)`: insert every pair in order. -/
def dupdate {α : Type} (d : List (String × α)) (kvs : List (String × α)) :
    List (String × α) :=
  kvs.foldl (fun acc kv => dinsert acc kv.1 kv.2) d

/-- A dataset/fileset spec registered on a study class.  Only the fields
that determine the merged namespace are carried: its name and its optional
pipeline-getter name (`derived` is having one).  The format/frequency/
default payloads of the source spec never affect spec names, and
`default.translate` (multi.py:338-342) mutates the default in place without
touching any name. -/
structure DataSpec where
  name : String
  pipeline_getter : Option String
deriving DecidableEq, Repr

/-- `derived`: a data spec with a pipeline getter is derived. -/
def DataSpec.derived (d : DataSpec) : Bool := d.pipeline_getter.isSome

/-- A parameter spec; only its name matters to the merge
(`renamed` at multi.py:349 copies the spec under a new name). -/
structure ParamSpec where
  name : String
deriving DecidableEq, Repr

/-- The per-class registry state read and written by
`MultiStudyMetaClass.__new__`: the `_data_specs` and `_param_specs` dicts of
the class and the set of its attribute names (for the `hasattr`/`setattr`
bookkeeping of forwarding pipeline getters, multi.py:329-334). -/
structure StudyClass where
  data_specs : List (String × DataSpec)
  param_specs : List (String × ParamSpec)
  methods : List String
deriving DecidableEq, Repr

/-- Modelled from the spec: `Study.spec_names()` (the base class
arcana/study/base.py is absent from the repository snapshot; per the spec a
StudyClass is one name-to-Specification registry over both kinds, so the
name view is the data-spec names together with the parameter-spec names). -/
def spec_names (sc : StudyClass) : List String :=
  dkeys sc.data_specs ++ dkeys sc.param_specs

/-- `SubStudySpec` (multi.py:202-281): the sub-study name, the sub-study's
class (represented by its registry) and the explicit name map `_name_map`
from child-local spec names to parent names. -/
structure SubStudySpec where
  name : String
  study_class : StudyClass
  _name_map : List (String × String)
deriving DecidableEq, Repr

/-- `apply_prefix(name)` (multi.py:260-261): sub-study name, underscore,
local name. -/
def SubStudySpec.prefixed (ss : SubStudySpec) (n : String) : String :=
  ss.name ++ "_" ++ n

/-- `auto_data_specs` (multi.py:263-271): data specs of the child class not
explicitly named in the map. -/
def SubStudySpec.auto_data_specs (ss : SubStudySpec) : List DataSpec :=
  (dvalues ss.study_class.data_specs).filter
    (fun d => (dlookup ss._name_map d.name).isNone)

/-- `auto_param_specs` (multi.py:273-281): parameter specs of the child
class not explicitly named in the map. -/
def SubStudySpec.auto_param_specs (ss : SubStudySpec) : List ParamSpec :=
  (dvalues ss.study_class.param_specs).filter
    (fun p => (dlookup ss._name_map p.name).isNone)

/-- The `name_map` property (multi.py:239-244): a dict built from an auto
entry per auto data spec, then updated with the explicit `_name_map`. -/
def SubStudySpec.name_map (ss : SubStudySpec) : List (String × String) :=
  dupdate (dupdate [] ((ss.auto_data_specs).map fun s => (s.name, ss.prefixed s.name)))
    ss._name_map

/-- The parent-level name under which a child-local spec is exposed: its
explicit map entry when present, the auto-namespaced name otherwise
(the fallback of `SubStudySpec.map`, multi.py:246-258). -/
def resolvedName (ss : SubStudySpec) (n : String) : String :=
  match dlookup ss._name_map n with
  | some g => g
  | none => ss.name ++ "_" ++ n

/-- Exceptions raised by the multi-study composition code
(arcana/study/multi.py), with structured payloads.  The two unknown-name
constructors model the `ArcanaUsageError` raises of the validation pass
(multi.py:358-370) — the spec's `ConfigurationError` — and
`duplicateSubStudy` models the `ArcanaNameError` raise of
`MultiStudy.__init__` (multi.py:122-126). -/
inductive MultiErr where
  | unknownLocalName (localName subStudyName : String)
  | unknownGlobalName (globalName subStudyName : String)
  | duplicateSubStudy (name : String)
deriving DecidableEq, Repr

/-- Which composition errors are `ArcanaUsageError`s (the spec's
definition-time `ConfigurationError`s). -/
def MultiErr.isConfig : MultiErr → Bool
  | .unknownLocalName _ _ => true
  | .unknownGlobalName _ _ => true
  | _ => false

/-- One auto data spec merged into the class being built (multi.py:316-343):
nothing happens if the translated name is already a data-spec name;
otherwise a copy of the spec is registered under the translated name, with
the pipeline getter of a derived spec translated as well and a forwarding
method installed unless an attribute of that name already exists. -/
def add_data_spec (ssname : String) (c : StudyClass) (d : DataSpec) : StudyClass :=
  let tname := ssname ++ "_" ++ d.name
  if tname ∈ dkeys c.data_specs then c
  else
    match d.pipeline_getter with
    | some pg =>
        let tp := ssname ++ "_" ++ pg
        let methods2 := if tp ∈ c.methods then c.methods else c.methods ++ [tp]
        { c with data_specs := dinsert c.data_specs tname ⟨tname, some tp⟩,
                 methods := methods2 }
    | none =>
        { c with data_specs := dinsert c.data_specs tname ⟨tname, none⟩ }

/-- One auto parameter spec merged (multi.py:345-351): skipped if the
translated name is already a parameter-spec name, registered renamed
otherwise. -/
def add_param_spec (ssname : String) (c : StudyClass) (p : ParamSpec) : StudyClass :=
  let tname := ssname ++ "_" ++ p.name
  if tname ∈ dkeys c.param_specs then c
  else { c with param_specs := dinsert c.param_specs tname ⟨tname⟩ }

/-- One iteration of the merge loop (multi.py:314-351): all auto data specs
of the binding, then all its auto parameter specs. -/
def merge_sub (c : StudyClass) (ss : SubStudySpec) : StudyClass :=
  (ss.auto_param_specs).foldl (add_param_spec ss.name)
    ((ss.auto_data_specs).foldl (add_data_spec ss.name) c)

/-- The gathering of `_sub_study_specs` (multi.py:296-308): an empty dict
updated with each base's specs in reversed base order, then with the locally
declared `add_sub_study_specs`; entries are keyed by the spec's name. -/
def gather_sub_study_specs (bases : List (List SubStudySpec))
    (add : List SubStudySpec) : List (String × SubStudySpec) :=
  dupdate
    (bases.reverse.foldl (fun acc b => dupdate acc (b.map fun s => (s.name, s))) [])
    (add.map fun s => (s.name, s))

/-- Validation of one explicit map entry (multi.py:357-370): the local name
must be a spec name of the child class, the global name a spec name of the
merged class. -/
def validate_entry (ssname : String) (childNames clsNames : List String)
    (e : String × String) : Except MultiErr Unit :=
  if e.1 ∉ childNames then .error (.unknownLocalName e.1 ssname)
  else if e.2 ∉ clsNames then .error (.unknownGlobalName e.2 ssname)
  else .ok ()

/-- Validation of all entries of one binding's explicit map, first failure
raising. -/
def validate_entries (ssname : String) (childNames clsNames : List String) :
    List (String × String) → Except MultiErr Unit
  | [] => .ok ()
  | e :: rest =>
      match validate_entry ssname childNames clsNames e with
      | .ok _ => validate_entries ssname childNames clsNames rest
      | .error err => .error err

/-- The validation pass over all gathered bindings (multi.py:352-370). -/
def validate_all (clsNames : List String) : List SubStudySpec → Except MultiErr Unit
  | [] => .ok ()
  | ss :: rest =>
      match validate_entries ss.name (spec_names ss.study_class) clsNames
          ss._name_map with
      | .ok _ => validate_all clsNames rest
      | .error err => .error err

/-- `MultiStudyMetaClass.__new__` (multi.py:291-371), taking as input the
sub-study-spec dicts contributed by the base classes, the locally declared
`add_sub_study_specs`, and `cls0`, the registry state of the class as
produced by the base `StudyMetaClass` call (multi.py:311): gather the spec
dict, run the merge loop over its values, then the validation pass against
the fully merged class, returning the gathered dict and the merged
registry. -/
def multi_study_meta_new (bases : List (List SubStudySpec))
    (add : List SubStudySpec) (cls0 : StudyClass) :
    Except MultiErr (List (String × SubStudySpec) × StudyClass) :=
  let subs := gather_sub_study_specs bases add
  let cls1 := (dvalues subs).foldl merge_sub cls0
  match validate_all (spec_names cls1) (dvalues subs) with
  | .ok _ => .ok (subs, cls1)
  | .error e => .error e

/-- The duplicate-name bookkeeping of `MultiStudy.__init__`
(multi.py:91-127): one sub-study is created per gathered spec, stored keyed
by the spec's name, raising the duplicate `ArcanaNameError` if the name was
already seen; returns the names registered. -/
def register_sub_studies : List SubStudySpec → List String → Except MultiErr (List String)
  | [], acc => .ok acc
  | ss :: rest, acc =>
      if ss.name ∈ acc then .error (.duplicateSubStudy ss.name)
      else register_sub_studies rest (acc ++ [ss.name])

/-- The Python-dict well-formedness of a class registry: unique keys in each
dict and each spec keyed by its own name. -/
def StudyClass.wf (sc : StudyClass) : Prop :=
  (dkeys sc.data_specs).Nodup ∧ (dkeys sc.param_specs).Nodup ∧
  (∀ p ∈ sc.data_specs, p.2.name = p.1) ∧
  (∀ p ∈ sc.param_specs, p.2.name = p.1)

example : split_version "1.2" = .ok [VPart.num 1, VPart.num 2] := rfl
example : split_version "abc" = .error (.versionParse "abc") := rfl
example : later_or_equal_version [VPart.num 1, VPart.num 2] [VPart.num 2, VPart.num 0] = .ok false := rfl
example :
    best_version ⟨"x", [VPart.num 1, VPart.num 0], some [VPart.num 2, VPart.num 0]⟩
      ["0.9", "1.0", "1.5", "2.0", "2.1"] = .ok "2.0" := rfl
example :
    best_version ⟨"x", [VPart.num 1, VPart.num 0], none⟩ ["abc", "1.5"] = .ok "1.5" := rfl
example :
    best_requirement [⟨"a", [VPart.num 2, VPart.num 0], none⟩] [] [("a", "1.2")]
      = .error (.incompatibleActive "a" "1.2") := rfl
example :
    best_requirement [⟨"a", [VPart.num 1, VPart.num 0], none⟩] [] [("a", "1.2")]
      = .ok ("a", "1.2") := rfl

/-! ### Properties of the version ordering -/

theorem charListLt_self (cs : List Char) : charListLt cs cs = false := by
  induction cs with
  | nil => rfl
  | cons a as1 ih => simp [charListLt, ih]

theorem partLt_self (v : VPart) : partLt v v = false := by
  cases v with
  | num a => simp [partLt]
  | str s => simp [partLt, charListLt_self]

theorem samePartType_self (v : VPart) : samePartType v v = true := by
  cases v <;> rfl

theorem leqLoop_cons_eq (v : VPart) (ps : List (VPart × VPart)) :
    leqLoop ((v, v) :: ps) = leqLoop ps := by
  simp [leqLoop, samePartType_self, partGt, partLt_self]

theorem leqLoop_eqPairs : ∀ ps, eqPairs ps = true → leqLoop ps = .ok true := by
  intro ps
  induction ps with
  | nil => intro _; rfl
  | cons p rest ih =>
      intro h
      obtain ⟨x, y⟩ := p
      simp only [eqPairs, List.all_cons, Bool.and_eq_true, decide_eq_true_eq] at h
      obtain ⟨h1, h2⟩ := h
      cases h1
      rw [leqLoop_cons_eq]
      exact ih h2

theorem padLeft_eq_swap (l : List VPart) :
    padLeft l = (padRight l).map (fun p => (p.2, p.1)) := by
  induction l with
  | nil => rfl
  | cons v vs ih => simp [padLeft, padRight, ih]

theorem padRight_eq_swap (l : List VPart) :
    padRight l = (padLeft l).map (fun p => (p.2, p.1)) := by
  induction l with
  | nil => rfl
  | cons v vs ih => simp [padLeft, padRight, ih]

theorem zipLongest0_swap : ∀ a b : List VPart,
    zipLongest0 b a = (zipLongest0 a b).map (fun p => (p.2, p.1)) := by
  intro a
  induction a with
  | nil =>
      intro b
      cases b with
      | nil => rfl
      | cons r rs => simp [zipLongest0, padLeft, padRight_eq_swap]
  | cons v vs ih =>
      intro b
      cases b with
      | nil => simp [zipLongest0, padRight, padLeft_eq_swap]
      | cons r rs => simp [zipLongest0, ih rs]

theorem eqPairs_swap : ∀ ps : List (VPart × VPart),
    eqPairs (ps.map (fun p => (p.2, p.1))) = eqPairs ps := by
  intro ps
  induction ps with
  | nil => rfl
  | cons p rest ih =>
      obtain ⟨x, y⟩ := p
      have hxy : (decide (y = x)) = (decide (x = y)) := by simp [eq_comm]
      simp only [List.map_cons, eqPairs, List.all_cons] at ih ⊢
      rw [hxy, ih]

theorem leqLoop_append_eq (pre : List (VPart × VPart)) (h : eqPairs pre = true) :
    ∀ ps, leqLoop (pre ++ ps) = leqLoop ps := by
  induction pre with
  | nil => intro ps; rfl
  | cons p rest ih =>
      intro ps
      obtain ⟨x, y⟩ := p
      simp only [eqPairs, List.all_cons, Bool.and_eq_true, decide_eq_true_eq] at h
      obtain ⟨h1, h2⟩ := h
      cases h1
      rw [List.cons_append, leqLoop_cons_eq]
      exact ih (by simpa [eqPairs] using h2) ps

theorem leqLoop_first_mismatch (v r : VPart) (rest : List (VPart × VPart))
    (h : samePartType v r = false) :
    leqLoop ((v, r) :: rest) = .error (.typeMismatch v r) := by
  simp [leqLoop, h]

theorem charListLt_antisymm : ∀ as1 bs : List Char,
    charListLt as1 bs = false → charListLt bs as1 = false → as1 = bs := by
  intro as1
  induction as1 with
  | nil =>
      intro bs h1 _
      cases bs with
      | nil => rfl
      | cons b bs2 => simp [charListLt] at h1
  | cons a as2 ih =>
      intro bs h1 h2
      cases bs with
      | nil => simp [charListLt] at h2
      | cons b bs2 =>
          by_cases hab : a < b
          · rw [charListLt] at h1
            simp [hab] at h1
          · by_cases hba : b < a
            · rw [charListLt] at h2
              simp [hba] at h2
            · have heq : a = b := le_antisymm (not_lt.mp hba) (not_lt.mp hab)
              subst heq
              rw [charListLt] at h1 h2
              simp [hab] at h1 h2
              rw [ih bs2 h1 h2]

theorem partEq_of_not_lt (v r : VPart) (ht : samePartType v r = true)
    (h1 : partLt v r = false) (h2 : partLt r v = false) : v = r := by
  cases v with
  | num a =>
      cases r with
      | num b =>
          simp only [partLt, decide_eq_false_iff_not, not_lt] at h1 h2
          have : a = b := le_antisymm h2 h1
          rw [this]
      | str s => simp [samePartType] at ht
  | str s =>
      cases r with
      | num b => simp [samePartType] at ht
      | str t =>
          simp only [partLt] at h1 h2
          have hdata : s.data = t.data := charListLt_antisymm _ _ h1 h2
          obtain ⟨d1⟩ := s
          obtain ⟨d2⟩ := t
          cases hdata
          rfl

/-- C4: `later_or_equal_version` compares the tuples pairwise left to right
after right-padding the shorter one with the int-`0` filler (`zipLongest0`):
two tuples whose padded pairs are all equal compare later-or-equal in both
directions; if the left-to-right scan reaches a pair of differently-typed
components (all earlier pairs equal) the comparison raises the hard
type-mismatch `ArcanaError`; and if it reaches a same-typed unequal pair
(all earlier pairs equal), that first unequal pair decides the result. -/
theorem version_ordering_properties :
    (∀ a b : List VPart, eqPairs (zipLongest0 a b) = true →
        later_or_equal_version a b = .ok true ∧
        later_or_equal_version b a = .ok true) ∧
    (∀ (a b : List VPart) (pre rest : List (VPart × VPart)) (v r : VPart),
        zipLongest0 a b = pre ++ (v, r) :: rest → eqPairs pre = true →
        samePartType v r = false →
        later_or_equal_version a b = .error (.typeMismatch v r)) ∧
    (∀ (a b : List VPart) (pre rest : List (VPart × VPart)) (v r : VPart),
        zipLongest0 a b = pre ++ (v, r) :: rest → eqPairs pre = true →
        samePartType v r = true → v ≠ r →
        later_or_equal_version a b = .ok (partGt v r)) := by
  refine ⟨?_, ?_, ?_⟩
  · intro a b h
    refine ⟨leqLoop_eqPairs _ h, ?_⟩
    unfold later_or_equal_version
    rw [zipLongest0_swap a b]
    exact leqLoop_eqPairs _ (by rw [eqPairs_swap]; exact h)
  · intro a b pre rest v r hzip hpre hmis
    unfold later_or_equal_version
    rw [hzip, leqLoop_append_eq pre hpre, leqLoop_first_mismatch v r rest hmis]
  · intro a b pre rest v r hzip hpre hst hne
    unfold later_or_equal_version
    rw [hzip, leqLoop_append_eq pre hpre]
    cases hgt : partGt v r with
    | true =>
        have hgt2 : partLt r v = true := hgt
        simp [leqLoop, hst, hgt, hgt2, partGt]
    | false =>
        have hgt2 : partLt r v = false := hgt
        cases hlt : partLt v r with
        | true => simp [leqLoop, hst, hgt, hgt2, hlt, partGt]
        | false => exact absurd (partEq_of_not_lt v r hst hlt hgt2) hne

/-- C4 witness: `(1)` and `(1, 0)` are equal after padding and compare
later-or-equal in both directions. -/
theorem version_ordering_properties_witness :
    later_or_equal_version [VPart.num 1] [VPart.num 1, VPart.num 0] = .ok true ∧
    later_or_equal_version [VPart.num 1, VPart.num 0] [VPart.num 1] = .ok true :=
  version_ordering_properties.1 [VPart.num 1] [VPart.num 1, VPart.num 0] (by decide)

/-! ### The numeric fragment of the version ordering

The modelled parser only ever produces numeric parts, so candidate
comparisons inside `best_version` take place in the numeric fragment, where
the ordering is total and transitive.  `ige` is the resulting
lexicographic-with-0-padding greater-or-equal on integer lists. -/

theorem if_lex_iff (x y : Int) (rest : Bool) :
    (if y < x then true else if x < y then false else rest) = true ↔
      (y < x ∨ (x = y ∧ rest = true)) := by
  rcases lt_trichotomy x y with h | h | h
  · simp [h, asymm h, h.ne]
  · subst h
    simp
  · simp [h, asymm h, h.ne']

theorem ige_iff (a b : List Int) :
    ige a b = true ↔ (hd0 b < hd0 a ∨ (hd0 a = hd0 b ∧ ige (tl0 a) (tl0 b) = true)) := by
  cases a with
  | nil =>
      cases b with
      | nil => simp [ige, hd0, tl0]
      | cons y ys =>
          simp only [ige, hd0, tl0]
          exact if_lex_iff 0 y (ige [] ys)
  | cons x xs =>
      cases b with
      | nil =>
          simp only [ige, hd0, tl0]
          exact if_lex_iff x 0 (ige xs [])
      | cons y ys =>
          simp only [ige, hd0, tl0]
          exact if_lex_iff x y (ige xs ys)

theorem ige_refl (a : List Int) : ige a a = true := by
  induction a with
  | nil => simp [ige]
  | cons x xs ih => simp [ige, ih]

theorem tl0_length_lt (a b : List Int) (h : ¬ (a = [] ∧ b = [])) :
    (tl0 a).length + (tl0 b).length + 1 ≤ a.length + b.length := by
  cases a with
  | nil =>
      cases b with
      | nil => exact absurd ⟨rfl, rfl⟩ h
      | cons y ys =>
          simp only [tl0, List.length_cons, List.length_nil]
          omega
  | cons x xs =>
      cases b with
      | nil =>
          simp only [tl0, List.length_cons, List.length_nil]
          omega
      | cons y ys =>
          simp only [tl0, List.length_cons]
          omega

theorem tl0_length_lt3 (a b c : List Int) (h : ¬ (a = [] ∧ b = [] ∧ c = [])) :
    (tl0 a).length + (tl0 b).length + (tl0 c).length + 1 ≤
      a.length + b.length + c.length := by
  cases a with
  | cons x xs =>
      have h2 := tl0_length_lt (x :: xs) b (by simp)
      have h3 : (tl0 c).length ≤ c.length := by
        cases c <;> simp [tl0]
      omega
  | nil =>
      cases b with
      | cons y ys =>
          have h2 := tl0_length_lt (y :: ys) c (by simp)
          simp only [tl0, List.length_cons, List.length_nil] at h2 ⊢
          omega
      | nil =>
          cases c with
          | cons z zs =>
              simp only [tl0, List.length_cons, List.length_nil]
              omega
          | nil => exact absurd ⟨rfl, rfl, rfl⟩ h

theorem ige_total_aux : ∀ (n : Nat) (a b : List Int), a.length + b.length ≤ n →
    ige a b = false → ige b a = true := by
  intro n
  induction n with
  | zero =>
      intro a b hl h
      have ha : a = [] := List.length_eq_zero.mp (by omega)
      have hb : b = [] := List.length_eq_zero.mp (by omega)
      subst ha; subst hb
      simp [ige] at h
  | succ n ih =>
      intro a b hl h
      by_cases hnil : a = [] ∧ b = []
      · obtain ⟨ha, hb⟩ := hnil
        subst ha; subst hb
        simp [ige] at h
      · have hP : ¬ (hd0 b < hd0 a ∨ (hd0 a = hd0 b ∧ ige (tl0 a) (tl0 b) = true)) := by
          rw [← ige_iff]
          simp [h]
        push_neg at hP
        obtain ⟨hP1, hP2⟩ := hP
        rw [ige_iff]
        rcases lt_trichotomy (hd0 a) (hd0 b) with hc | hc | hc
        · exact Or.inl hc
        · refine Or.inr ⟨hc.symm, ?_⟩
          have hrec : ige (tl0 a) (tl0 b) = false := by
            have h2 := hP2 hc
            simpa using h2
          have hlen := tl0_length_lt a b hnil
          exact ih (tl0 a) (tl0 b) (by omega) hrec
        · omega

theorem ige_total (a b : List Int) (h : ige a b = false) : ige b a = true :=
  ige_total_aux (a.length + b.length) a b le_rfl h

theorem ige_trans_aux : ∀ (n : Nat) (a b c : List Int),
    a.length + b.length + c.length ≤ n →
    ige a b = true → ige b c = true → ige a c = true := by
  intro n
  induction n with
  | zero =>
      intro a b c hl _ _
      have ha : a = [] := List.length_eq_zero.mp (by omega)
      have hc : c = [] := List.length_eq_zero.mp (by omega)
      subst ha; subst hc
      simp [ige]
  | succ n ih =>
      intro a b c hl hab hbc
      by_cases hnil : a = [] ∧ b = [] ∧ c = []
      · obtain ⟨ha, hb, hc⟩ := hnil
        subst ha; subst hb; subst hc
        simp [ige]
      · rw [ige_iff] at hab hbc ⊢
        have hlen := tl0_length_lt3 a b c hnil
        rcases hab with h1 | ⟨h1, h1r⟩ <;> rcases hbc with h2 | ⟨h2, h2r⟩
        · exact Or.inl (by omega)
        · exact Or.inl (by omega)
        · exact Or.inl (by omega)
        · exact Or.inr ⟨by omega, ih (tl0 a) (tl0 b) (tl0 c) (by omega) h1r h2r⟩

theorem ige_trans (a b c : List Int) (hab : ige a b = true) (hbc : ige b c = true) :
    ige a c = true :=
  ige_trans_aux (a.length + b.length + c.length) a b c le_rfl hab hbc

theorem zipLongest0_nil_right (l : List VPart) : zipLongest0 l [] = padRight l := by
  cases l <;> rfl

theorem vAllNum_cons (p : VPart) (l : List VPart) :
    vAllNum (p :: l) = (p.isNum && vAllNum l) := rfl

/-- One comparison step of the loop on two numeric parts. -/
theorem leqLoop_num_cons (i j : Int) (ps : List (VPart × VPart)) :
    leqLoop ((VPart.num i, VPart.num j) :: ps) =
      (if i > j then .ok true else if i < j then .ok false else leqLoop ps) := by
  rcases lt_trichotomy i j with h | h | h
  · simp [leqLoop, samePartType, partGt, partLt, h, asymm h, h.ne]
  · subst h
    simp [leqLoop, samePartType, partGt, partLt]
  · simp [leqLoop, samePartType, partGt, partLt, h, asymm h, h.ne']

/-- On all-numeric tuples the source ordering never raises and coincides
with `ige` on the underlying integers. -/
theorem leq_eq_ige : ∀ a b : List VPart, vAllNum a = true → vAllNum b = true →
    later_or_equal_version a b = .ok (ige (toInts a) (toInts b)) := by
  intro a
  induction a with
  | nil =>
      intro b _
      induction b with
      | nil =>
          intro _
          simp [later_or_equal_version, zipLongest0, padLeft, leqLoop, ige, toInts]
      | cons r rs ihb =>
          intro hb
          cases r with
          | str s => simp [vAllNum, VPart.isNum] at hb
          | num j =>
              rw [vAllNum_cons, Bool.and_eq_true] at hb
              have ihb2 := ihb hb.2
              unfold later_or_equal_version at ihb2 ⊢
              simp only [zipLongest0, padLeft] at ihb2 ⊢
              rw [leqLoop_num_cons]
              simp only [toInts, List.map_cons, List.map_nil] at ihb2 ⊢
              simp only [ige]
              split_ifs with h1 h2
              · rfl
              · rfl
              · exact ihb2
  | cons v vs ih =>
      intro b ha hb
      cases v with
      | str s => simp [vAllNum, VPart.isNum] at ha
      | num i =>
          rw [vAllNum_cons, Bool.and_eq_true] at ha
          cases b with
          | nil =>
              have ihb2 := ih [] ha.2 rfl
              unfold later_or_equal_version at ihb2 ⊢
              rw [zipLongest0_nil_right] at ihb2
              simp only [zipLongest0]
              rw [leqLoop_num_cons]
              simp only [toInts, List.map_cons, List.map_nil] at ihb2 ⊢
              simp only [ige]
              split_ifs with h1 h2
              · rfl
              · rfl
              · exact ihb2
          | cons r rs =>
              cases r with
              | str s => simp [vAllNum, VPart.isNum] at hb
              | num j =>
                  rw [vAllNum_cons, Bool.and_eq_true] at hb
                  have ihb2 := ih rs ha.2 hb.2
                  unfold later_or_equal_version at ihb2 ⊢
                  simp only [zipLongest0]
                  rw [leqLoop_num_cons]
                  simp only [toInts, List.map_cons] at ihb2 ⊢
                  simp only [ige]
                  split_ifs with h1 h2
                  · rfl
                  · rfl
                  · exact ihb2

/-! ### Soundness of the best-version selection loop -/

theorem parsePart_isNum (cs : List Char) (p : VPart) (h : parsePart cs = some p) :
    p.isNum = true := by
  unfold parsePart at h
  split at h
  · cases h
    rfl
  · cases h

theorem parseParts_allNum : ∀ (gs : List (List Char)) (parts : List VPart),
    parseParts gs = some parts → vAllNum parts = true := by
  intro gs
  induction gs with
  | nil =>
      intro parts h
      cases h
      rfl
  | cons g gs2 ih =>
      intro parts h
      unfold parseParts at h
      cases hp : parsePart g with
      | none =>
          rw [hp] at h
          cases h
      | some p0 =>
          rw [hp] at h
          cases hps : parseParts gs2 with
          | none =>
              rw [hps] at h
              cases h
          | some ps =>
              rw [hps] at h
              cases h
              rw [vAllNum_cons, Bool.and_eq_true]
              exact ⟨parsePart_isNum _ _ hp, ih ps hps⟩

theorem split_version_allNum (s : String) (p : List VPart)
    (h : split_version s = .ok p) : vAllNum p = true := by
  unfold split_version at h
  cases hm : parseParts (splitDots s.data) with
  | none => rw [hm] at h; cases h
  | some parts =>
      rw [hm] at h
      cases h
      exact parseParts_allNum _ _ hm

theorem reqAllNum_min (req : Requirement) (h : reqAllNum req = true) :
    vAllNum req.min_ver = true := by
  unfold reqAllNum at h
  rw [Bool.and_eq_true] at h
  exact h.1

theorem reqAllNum_max (req : Requirement) (m : List VPart) (h : reqAllNum req = true)
    (hm : req.max_ver = some m) : vAllNum m = true := by
  unfold reqAllNum at h
  rw [Bool.and_eq_true] at h
  have h2 := h.2
  rw [hm] at h2
  exact h2

theorem valid_version_eq (req : Requirement) (p : List VPart)
    (hreq : reqAllNum req = true) (hp : vAllNum p = true) :
    valid_version req p = .ok (boolValid req p) := by
  unfold valid_version boolValid
  rw [leq_eq_ige p req.min_ver hp (reqAllNum_min req hreq)]
  cases h1 : ige (toInts p) (toInts req.min_ver) with
  | false => simp
  | true =>
      cases hm : req.max_ver with
      | none => simp
      | some m => simp [leq_eq_ige m p (reqAllNum_max req m hreq hm) hp]

theorem bvLoop_ok_some (req : Requirement) :
    ∀ (rest : List String) (best : Option (String × List VPart))
      (v : String) (pv : List VPart),
    reqAllNum req = true →
    BestOk req best →
    bvLoop req rest best = .ok (some (v, pv)) →
    ((v ∈ rest ∧ split_version v = .ok pv ∧ valid_version req pv = .ok true) ∨
        best = some (v, pv)) ∧
    (∀ c ∈ rest, ∀ pc, split_version c = .ok pc → valid_version req pc = .ok true →
        ige (toInts pv) (toInts pc) = true) ∧
    (∀ b, best = some b → ige (toInts pv) (toInts b.2) = true) := by
  intro rest
  induction rest with
  | nil =>
      intro best v pv hreq hbest hloop
      simp only [bvLoop] at hloop
      cases hloop
      refine ⟨Or.inr rfl, ?_, ?_⟩
      · intro c hc
        cases hc
      · intro b hb
        cases hb
        exact ige_refl _
  | cons ver rest2 ih =>
      intro best v pv hreq hbest hloop
      cases hs : split_version ver with
      | error e =>
          rw [show bvLoop req (ver :: rest2) best = bvLoop req rest2 best by
                simp [bvLoop, hs]] at hloop
          obtain ⟨m1, m2, m3⟩ := ih best v pv hreq hbest hloop
          refine ⟨?_, ?_, m3⟩
          · rcases m1 with ⟨hm, h2, h3⟩ | hm
            · exact Or.inl ⟨List.mem_cons_of_mem _ hm, h2, h3⟩
            · exact Or.inr hm
          · intro c hc pc hpc hval
            rcases List.mem_cons.mp hc with rfl | hc2
            · rw [hs] at hpc
              cases hpc
            · exact m2 c hc2 pc hpc hval
      | ok p =>
          have hpn : vAllNum p = true := split_version_allNum _ _ hs
          have hvv := valid_version_eq req p hreq hpn
          cases hbv : boolValid req p with
          | false =>
              rw [hbv] at hvv
              rw [show bvLoop req (ver :: rest2) best = bvLoop req rest2 best by
                    simp [bvLoop, hs, hvv]] at hloop
              obtain ⟨m1, m2, m3⟩ := ih best v pv hreq hbest hloop
              refine ⟨?_, ?_, m3⟩
              · rcases m1 with ⟨hm, h2, h3⟩ | hm
                · exact Or.inl ⟨List.mem_cons_of_mem _ hm, h2, h3⟩
                · exact Or.inr hm
              · intro c hc pc hpc hval
                rcases List.mem_cons.mp hc with rfl | hc2
                · rw [hs] at hpc
                  cases hpc
                  rw [hval] at hvv
                  simp at hvv
                · exact m2 c hc2 pc hpc hval
          | true =>
              rw [hbv] at hvv
              cases best with
              | none =>
                  rw [show bvLoop req (ver :: rest2) none =
                        bvLoop req rest2 (some (ver, p)) by
                      simp [bvLoop, hs, hvv]] at hloop
                  obtain ⟨m1, m2, m3⟩ :=
                    ih (some (ver, p)) v pv hreq ⟨hs, hvv⟩ hloop
                  refine ⟨?_, ?_, ?_⟩
                  · rcases m1 with ⟨hm, h2, h3⟩ | hm
                    · exact Or.inl ⟨List.mem_cons_of_mem _ hm, h2, h3⟩
                    · cases hm
                      exact Or.inl ⟨List.mem_cons_self _ _, hs, hvv⟩
                  · intro c hc pc hpc hval
                    rcases List.mem_cons.mp hc with rfl | hc2
                    · rw [hs] at hpc
                      cases hpc
                      exact m3 _ rfl
                    · exact m2 c hc2 pc hpc hval
                  · intro b hb
                    cases hb
              | some b0 =>
                  have hb0n : vAllNum b0.2 = true :=
                    split_version_allNum _ _ hbest.1
                  have hcmp := leq_eq_ige p b0.2 hpn hb0n
                  cases hge : ige (toInts p) (toInts b0.2) with
                  | true =>
                      rw [hge] at hcmp
                      rw [show bvLoop req (ver :: rest2) (some b0) =
                            bvLoop req rest2 (some (ver, p)) by
                          simp [bvLoop, hs, hvv, hcmp]] at hloop
                      obtain ⟨m1, m2, m3⟩ :=
                        ih (some (ver, p)) v pv hreq ⟨hs, hvv⟩ hloop
                      have hpvp : ige (toInts pv) (toInts p) = true := m3 (ver, p) rfl
                      refine ⟨?_, ?_, ?_⟩
                      · rcases m1 with ⟨hm, h2, h3⟩ | hm
                        · exact Or.inl ⟨List.mem_cons_of_mem _ hm, h2, h3⟩
                        · cases hm
                          exact Or.inl ⟨List.mem_cons_self _ _, hs, hvv⟩
                      · intro c hc pc hpc hval
                        rcases List.mem_cons.mp hc with rfl | hc2
                        · rw [hs] at hpc
                          cases hpc
                          exact hpvp
                        · exact m2 c hc2 pc hpc hval
                      · intro b hb
                        cases hb
                        exact ige_trans _ _ _ hpvp hge
                  | false =>
                      rw [hge] at hcmp
                      rw [show bvLoop req (ver :: rest2) (some b0) =
                            bvLoop req rest2 (some b0) by
                          simp [bvLoop, hs, hvv, hcmp]] at hloop
                      obtain ⟨m1, m2, m3⟩ := ih (some b0) v pv hreq hbest hloop
                      have hb0p : ige (toInts b0.2) (toInts p) = true :=
                        ige_total _ _ hge
                      have hpvb0 : ige (toInts pv) (toInts b0.2) = true := m3 b0 rfl
                      refine ⟨?_, ?_, m3⟩
                      · rcases m1 with ⟨hm, h2, h3⟩ | hm
                        · exact Or.inl ⟨List.mem_cons_of_mem _ hm, h2, h3⟩
                        · exact Or.inr hm
                      · intro c hc pc hpc hval
                        rcases List.mem_cons.mp hc with rfl | hc2
                        · rw [hs] at hpc
                          cases hpc
                          exact ige_trans _ _ _ hpvb0 hb0p
                        · exact m2 c hc2 pc hpc hval

theorem bvLoop_no_valid (req : Requirement) :
    ∀ rest : List String,
    (∀ c ∈ rest, ∀ pc, split_version c = .ok pc → valid_version req pc = .ok false) →
    bvLoop req rest none = .ok none := by
  intro rest
  induction rest with
  | nil => intro _; rfl
  | cons ver rest2 ih =>
      intro hno
      cases hs : split_version ver with
      | error e =>
          rw [show bvLoop req (ver :: rest2) none = bvLoop req rest2 none by
                simp [bvLoop, hs]]
          exact ih (fun c hc => hno c (List.mem_cons_of_mem _ hc))
      | ok p =>
          have hvf := hno ver (List.mem_cons_self _ _) p hs
          rw [show bvLoop req (ver :: rest2) none = bvLoop req rest2 none by
                simp [bvLoop, hs, hvf]]
          exact ih (fun c hc => hno c (List.mem_cons_of_mem _ hc))

/-- C2: on a requirement whose bounds are numeric tuples, `best_version`
skips candidates that fail to parse, filters the rest through the
compatibility test against the min/max range, and any returned candidate is
a member of the list that parses, passes the test, and is later-or-equal to
every other parsing, passing candidate; if no candidate parses and passes,
it fails with the no-compatible-version exception carrying the name, the
range and the full candidate list.  Concretely, with min (1,0) and max (2,0)
the candidates ["0.9","1.0","1.5","2.0","2.1"] select "2.0". -/
theorem best_version_selects_greatest :
    (∀ (req : Requirement) (avail : List String) (v : String),
        reqAllNum req = true →
        best_version req avail = .ok v →
        v ∈ avail ∧
          ∃ pv, split_version v = .ok pv ∧ valid_version req pv = .ok true ∧
            ∀ c ∈ avail, ∀ pc, split_version c = .ok pc →
              valid_version req pc = .ok true →
              later_or_equal_version pv pc = .ok true) ∧
    (∀ (req : Requirement) (avail : List String),
        (∀ c ∈ avail, ∀ pc, split_version c = .ok pc →
            valid_version req pc = .ok false) →
        best_version req avail =
          .error (.noCompatibleVersion req.name req.min_ver req.max_ver avail)) ∧
    best_version ⟨"x", [VPart.num 1, VPart.num 0], some [VPart.num 2, VPart.num 0]⟩
        ["0.9", "1.0", "1.5", "2.0", "2.1"] = .ok "2.0" := by
  refine ⟨?_, ?_, rfl⟩
  · intro req avail v hreq hbv
    unfold best_version at hbv
    cases hloop : bvLoop req avail none with
    | error e =>
        rw [hloop] at hbv
        cases hbv
    | ok ob =>
        cases ob with
        | none =>
            rw [hloop] at hbv
            cases hbv
        | some b =>
            obtain ⟨b1, b2⟩ := b
            rw [hloop] at hbv
            cases hbv
            obtain ⟨m1, m2, _⟩ :=
              bvLoop_ok_some req avail none b1 b2 hreq trivial hloop
            rcases m1 with ⟨hm, hsp, hvl⟩ | hm
            · refine ⟨hm, b2, hsp, hvl, ?_⟩
              intro c hc pc hpc hval
              have hgc := m2 c hc pc hpc hval
              rw [leq_eq_ige b2 pc (split_version_allNum _ _ hsp)
                    (split_version_allNum _ _ hpc), hgc]
            · cases hm
  · intro req avail hno
    unfold best_version
    rw [bvLoop_no_valid req avail hno]

/-- C2 witness: the concrete selection of "2.0", with the returned candidate
maximal among the compatible ones. -/
theorem best_version_selects_greatest_witness :
    "2.0" ∈ ["0.9", "1.0", "1.5", "2.0", "2.1"] ∧
      ∃ pv, split_version "2.0" = .ok pv ∧
        valid_version
            ⟨"x", [VPart.num 1, VPart.num 0], some [VPart.num 2, VPart.num 0]⟩
            pv = .ok true ∧
        ∀ c ∈ ["0.9", "1.0", "1.5", "2.0", "2.1"], ∀ pc,
          split_version c = .ok pc →
          valid_version
              ⟨"x", [VPart.num 1, VPart.num 0], some [VPart.num 2, VPart.num 0]⟩
              pc = .ok true →
          later_or_equal_version pv pc = .ok true :=
  best_version_selects_greatest.1
    ⟨"x", [VPart.num 1, VPart.num 0], some [VPart.num 2, VPart.num 0]⟩
    ["0.9", "1.0", "1.5", "2.0", "2.1"] "2.0" (by decide) rfl

/-- C8: a candidate whose version string fails to parse is skipped by the
selection loop without aborting the selection (the loop continues on the
remaining candidates with the same running best), and concretely
best_of(["abc","1.5"]) with min (1,0) returns "1.5" instead of raising. -/
theorem unparseable_candidate_skipped :
    (∀ (req : Requirement) (c : String) (rest : List String)
        (best : Option (String × List VPart)) (e : PyErr),
        split_version c = .error e →
        bvLoop req (c :: rest) best = bvLoop req rest best) ∧
    best_version ⟨"x", [VPart.num 1, VPart.num 0], none⟩ ["abc", "1.5"]
      = .ok "1.5" := by
  refine ⟨?_, rfl⟩
  intro req c rest best e hs
  simp [bvLoop, hs]

/-- C8 witness: skipping the concrete unparseable candidate "abc". -/
theorem unparseable_candidate_skipped_witness :
    bvLoop ⟨"x", [VPart.num 1, VPart.num 0], none⟩ ["abc"] none =
      bvLoop ⟨"x", [VPart.num 1, VPart.num 0], none⟩ [] none :=
  unparseable_candidate_skipped.1 ⟨"x", [VPart.num 1, VPart.num 0], none⟩
    "abc" [] none (.versionParse "abc") rfl

/-- C3: when the preloaded (active) map already holds a version for the
first alternative's dependency name and that version parses but fails the
compatibility test, the whole resolution fails immediately with the
incompatible-active `ArcanaError`, for every list of later alternatives and
every available map (no fall-through). -/
theorem incompatible_preloaded_hard_failure
    (req : Requirement) (rest : List Requirement)
    (available : List (String × List String)) (preloaded : List (String × String))
    (v : String) (parts : List VPart)
    (hpre : dlookup preloaded req.name = some v)
    (hsplit : split_version v = .ok parts)
    (hvalid : valid_version req parts = .ok false) :
    best_requirement (req :: rest) available preloaded =
      .error (.incompatibleActive req.name v) := by
  unfold best_requirement
  simp [brLoop, hpre, hsplit, hvalid]

/-- C3 witness: resolve([Req(a, min=(2,0))], available={}, active={a: "1.2"})
raises the incompatible-active error. -/
theorem incompatible_preloaded_hard_failure_witness :
    best_requirement [⟨"a", [VPart.num 2, VPart.num 0], none⟩] [] [("a", "1.2")] =
      .error (.incompatibleActive "a" "1.2") :=
  incompatible_preloaded_hard_failure ⟨"a", [VPart.num 2, VPart.num 0], none⟩
    [] [] [("a", "1.2")] "1.2" [VPart.num 1, VPart.num 2] rfl rfl rfl

/-- C7: when the preloaded (active) map holds a version for the first
alternative's dependency name and it passes the compatibility test, the
resolution returns that name and version immediately, for every available
map (it is never consulted) and every list of later alternatives. -/
theorem compatible_preloaded_returned
    (req : Requirement) (rest : List Requirement)
    (available : List (String × List String)) (preloaded : List (String × String))
    (v : String) (parts : List VPart)
    (hpre : dlookup preloaded req.name = some v)
    (hsplit : split_version v = .ok parts)
    (hvalid : valid_version req parts = .ok true) :
    best_requirement (req :: rest) available preloaded = .ok (req.name, v) := by
  unfold best_requirement
  simp [brLoop, hpre, hsplit, hvalid]

/-- C7 witness: resolve([Req(a, min=(1,0))], available={}, active={a: "1.2"})
returns ("a", "1.2"). -/
theorem compatible_preloaded_returned_witness :
    best_requirement [⟨"a", [VPart.num 1, VPart.num 0], none⟩] [] [("a", "1.2")] =
      .ok ("a", "1.2") :=
  compatible_preloaded_returned ⟨"a", [VPart.num 1, VPart.num 0], none⟩
    [] [] [("a", "1.2")] "1.2" [VPart.num 1, VPart.num 2] rfl rfl rfl

/-- C10: when an alternative's dependency name is present in neither the
preloaded map nor the available map, the resolution loop stops with the raw
`KeyError` from indexing `available_modules` — whatever was accumulated so
far and whatever alternatives remain — and that error is not an
`ArcanaRequirementVersionException`, so it is neither recorded as a
per-alternative failure nor joined into the aggregate message. -/
theorem missing_module_raises_key_error
    (req : Requirement) (rest : List Requirement) (excs : List PyErr)
    (available : List (String × List String)) (preloaded : List (String × String))
    (hpre : dlookup preloaded req.name = none)
    (hav : dlookup available req.name = none) :
    brLoop available preloaded (req :: rest) excs = .error (.keyError req.name) ∧
    best_requirement (req :: rest) available preloaded =
      .error (.keyError req.name) ∧
    PyErr.isVersionExc (.keyError req.name) = false := by
  refine ⟨?_, ?_, rfl⟩
  · simp [brLoop, hpre, hav]
  · unfold best_requirement
    simp [brLoop, hpre, hav]

/-- C10 witness: a dependency name absent from both maps. -/
theorem missing_module_raises_key_error_witness :
    brLoop [] [] [⟨"a", [VPart.num 1], none⟩] [] = .error (.keyError "a") ∧
    best_requirement [⟨"a", [VPart.num 1], none⟩] [] [] = .error (.keyError "a") ∧
    PyErr.isVersionExc (.keyError "a") = false :=
  missing_module_raises_key_error ⟨"a", [VPart.num 1], none⟩ [] [] [] [] rfl rfl

/-! ### Dict lemmas -/

theorem dlookup_eq_none {α : Type} :
    ∀ (l : List (String × α)) (k : String), k ∉ dkeys l → dlookup l k = none := by
  intro l
  induction l with
  | nil => intro k _; rfl
  | cons p rest ih =>
      intro k hk
      obtain ⟨k0, v0⟩ := p
      simp only [dkeys, List.map_cons, List.mem_cons, not_or] at hk
      obtain ⟨hk1, hk2⟩ := hk
      simp only [dlookup, if_neg (Ne.symm hk1)]
      exact ih k hk2

theorem dlookup_mem {α : Type} :
    ∀ (l : List (String × α)) (k : String) (v : α),
    dlookup l k = some v → (k, v) ∈ l := by
  intro l
  induction l with
  | nil => intro k v h; cases h
  | cons p rest ih =>
      intro k v h
      obtain ⟨k0, v0⟩ := p
      by_cases hk : k0 = k
      · subst hk
        simp only [dlookup, if_pos rfl] at h
        cases h
        exact List.mem_cons_self _ _
      · simp only [dlookup, if_neg hk] at h
        exact List.mem_cons_of_mem _ (ih k v h)

theorem dlookup_dinsert_self {α : Type} :
    ∀ (d : List (String × α)) (k : String) (v : α),
    dlookup (dinsert d k v) k = some v := by
  intro d
  induction d with
  | nil => intro k v; simp [dinsert, dlookup]
  | cons p rest ih =>
      intro k v
      obtain ⟨k0, v0⟩ := p
      by_cases h : k0 = k
      · subst h
        simp [dinsert, dlookup]
      · simp [dinsert, dlookup, h, ih]

theorem dlookup_dinsert_ne {α : Type} :
    ∀ (d : List (String × α)) (k k' : String) (v : α), k' ≠ k →
    dlookup (dinsert d k v) k' = dlookup d k' := by
  intro d
  induction d with
  | nil =>
      intro k k' v h
      simp [dinsert, dlookup, Ne.symm h]
  | cons p rest ih =>
      intro k k' v h
      obtain ⟨k0, v0⟩ := p
      by_cases h0 : k0 = k
      · subst h0
        simp [dinsert, dlookup, Ne.symm h]
      · simp only [dinsert, if_neg h0]
        by_cases h1 : k0 = k'
        · subst h1
          simp [dlookup]
        · simp only [dlookup, if_neg h1]
          exact ih k k' v h

theorem dlookup_dupdate {α : Type} :
    ∀ (kvs d : List (String × α)) (k : String), (dkeys kvs).Nodup →
    dlookup (dupdate d kvs) k =
      match dlookup kvs k with
      | some v => some v
      | none => dlookup d k := by
  intro kvs
  induction kvs with
  | nil => intro d k _; rfl
  | cons p rest ih =>
      intro d k h
      obtain ⟨k0, v0⟩ := p
      simp only [dkeys, List.map_cons, List.nodup_cons] at h
      obtain ⟨hk0, hnd⟩ := h
      show dlookup (dupdate (dinsert d k0 v0) rest) k = _
      rw [ih (dinsert d k0 v0) k hnd]
      by_cases hk : k0 = k
      · subst hk
        rw [dlookup_eq_none rest k0 hk0]
        simp [dlookup, dlookup_dinsert_self]
      · rw [dlookup_dinsert_ne d k0 k v0 (Ne.symm hk)]
        simp [dlookup, hk]

theorem dlookup_dupdate_mapfun {α : Type} (f : String → α) :
    ∀ (l : List String) (d : List (String × α)) (k : String),
    dlookup (dupdate d (l.map fun n => (n, f n))) k =
      if k ∈ l then some (f k) else dlookup d k := by
  intro l
  induction l with
  | nil => intro d k; simp [dupdate]
  | cons n0 rest ih =>
      intro d k
      show dlookup (dupdate (dinsert d n0 (f n0)) (rest.map _)) k = _
      rw [ih (dinsert d n0 (f n0)) k]
      by_cases hk : k ∈ rest
      · simp [hk, List.mem_cons]
      · by_cases hk0 : k = n0
        · subst hk0
          simp [hk, dlookup_dinsert_self]
        · simp [hk, hk0, dlookup_dinsert_ne d n0 k (f n0) hk0]

theorem dkeys_dinsert {α : Type} :
    ∀ (d : List (String × α)) (k : String) (v : α),
    dkeys (dinsert d k v) = if k ∈ dkeys d then dkeys d else dkeys d ++ [k] := by
  intro d
  induction d with
  | nil => intro k v; simp [dinsert, dkeys]
  | cons p rest ih =>
      intro k v
      obtain ⟨k0, v0⟩ := p
      by_cases h : k0 = k
      · subst h
        simp [dinsert, dkeys]
      · rw [show dinsert ((k0, v0) :: rest) k v = (k0, v0) :: dinsert rest k v from by
              simp [dinsert, h],
            show dkeys ((k0, v0) :: dinsert rest k v) = k0 :: dkeys (dinsert rest k v)
              from rfl,
            show dkeys ((k0, v0) :: rest) = k0 :: dkeys rest from rfl,
            ih k v]
        by_cases hm : k ∈ dkeys rest
        · rw [if_pos hm, if_pos (List.mem_cons_of_mem _ hm)]
        · have hnotin : k ∉ k0 :: dkeys rest := by
            intro hc
            rcases List.mem_cons.mp hc with hc | hc
            · exact h hc.symm
            · exact hm hc
          rw [if_neg hm, if_neg hnotin, List.cons_append]

theorem mem_dkeys_dinsert {α : Type} (d : List (String × α)) (k : String) (v : α) :
    k ∈ dkeys (dinsert d k v) := by
  rw [dkeys_dinsert]
  split_ifs with h
  · exact h
  · simp

theorem dkeys_sub_dinsert {α : Type} (d : List (String × α)) (k : String) (v : α) :
    dkeys d ⊆ dkeys (dinsert d k v) := by
  rw [dkeys_dinsert]
  split_ifs
  · exact fun x hx => hx
  · exact List.subset_append_left _ _

theorem nodup_dinsert {α : Type} (d : List (String × α)) (k : String) (v : α)
    (h : (dkeys d).Nodup) : (dkeys (dinsert d k v)).Nodup := by
  rw [dkeys_dinsert]
  split_ifs with hm
  · exact h
  · exact List.nodup_append.mpr ⟨h, List.nodup_singleton _, by
      intro a ha hb
      simp only [List.mem_singleton] at hb
      subst hb
      exact hm ha⟩

theorem nodup_dupdate {α : Type} :
    ∀ (kvs d : List (String × α)), (dkeys d).Nodup → (dkeys (dupdate d kvs)).Nodup := by
  intro kvs
  induction kvs with
  | nil => intro d h; exact h
  | cons p rest ih =>
      intro d h
      exact ih (dinsert d p.1 p.2) (nodup_dinsert d p.1 p.2 h)

theorem dinsert_forall {α : Type} (P : String × α → Prop) :
    ∀ (d : List (String × α)) (k : String) (v : α),
    (∀ p ∈ d, P p) → P (k, v) → ∀ p ∈ dinsert d k v, P p := by
  intro d
  induction d with
  | nil =>
      intro k v _ hkv p hp
      simp only [dinsert, List.mem_singleton] at hp
      subst hp
      exact hkv
  | cons q rest ih =>
      intro k v hd hkv p hp
      obtain ⟨k0, v0⟩ := q
      obtain ⟨p1, p2⟩ := p
      by_cases h : k0 = k
      · subst h
        simp only [dinsert, if_pos, List.mem_cons, Prod.mk.injEq] at hp
        rcases hp with ⟨rfl, rfl⟩ | hp
        · exact hkv
        · exact hd _ (List.mem_cons_of_mem _ hp)
      · simp only [dinsert, if_neg h, List.mem_cons, Prod.mk.injEq] at hp
        rcases hp with ⟨rfl, rfl⟩ | hp
        · exact hd _ (List.mem_cons_self _ _)
        · exact ih k v (fun q hq => hd q (List.mem_cons_of_mem _ hq)) hkv _ hp

theorem dupdate_forall {α : Type} (P : String × α → Prop) :
    ∀ (kvs d : List (String × α)),
    (∀ p ∈ d, P p) → (∀ p ∈ kvs, P p) → ∀ p ∈ dupdate d kvs, P p := by
  intro kvs
  induction kvs with
  | nil => intro d hd _; exact hd
  | cons q rest ih =>
      intro d hd hkvs
      exact ih (dinsert d q.1 q.2)
        (dinsert_forall P d q.1 q.2 hd (by
          have := hkvs q (List.mem_cons_self _ _)
          exact this))
        (fun p hp => hkvs p (List.mem_cons_of_mem _ hp))

/-! ### The gathered sub-study dict -/

theorem gather_aux_keyed :
    ∀ (l : List (List SubStudySpec)) (acc : List (String × SubStudySpec)),
    (∀ p ∈ acc, p.2.name = p.1) →
    ∀ p ∈ l.foldl (fun acc b => dupdate acc (b.map fun s => (s.name, s))) acc,
      p.2.name = p.1 := by
  intro l
  induction l with
  | nil => intro acc h; exact h
  | cons b rest ih =>
      intro acc h
      refine ih _ (dupdate_forall _ _ _ h ?_)
      intro p hp
      simp only [List.mem_map] at hp
      obtain ⟨s, _, rfl⟩ := hp
      rfl

theorem gather_aux_nodup :
    ∀ (l : List (List SubStudySpec)) (acc : List (String × SubStudySpec)),
    (dkeys acc).Nodup →
    (dkeys (l.foldl (fun acc b => dupdate acc (b.map fun s => (s.name, s))) acc)).Nodup := by
  intro l
  induction l with
  | nil => intro acc h; exact h
  | cons b rest ih =>
      intro acc h
      exact ih _ (nodup_dupdate _ acc h)

theorem gather_keyed (bases : List (List SubStudySpec)) (add : List SubStudySpec) :
    ∀ p ∈ gather_sub_study_specs bases add, p.2.name = p.1 := by
  unfold gather_sub_study_specs
  refine dupdate_forall _ _ _ (gather_aux_keyed bases.reverse [] ?_) ?_
  · intro p hp
    cases hp
  · intro p hp
    simp only [List.mem_map] at hp
    obtain ⟨s, _, rfl⟩ := hp
    rfl

theorem gather_nodup (bases : List (List SubStudySpec)) (add : List SubStudySpec) :
    (dkeys (gather_sub_study_specs bases add)).Nodup := by
  unfold gather_sub_study_specs
  exact nodup_dupdate _ _ (gather_aux_nodup bases.reverse [] List.nodup_nil)

theorem register_ok_of_nodup :
    ∀ (l : List SubStudySpec) (acc : List String),
    (l.map SubStudySpec.name).Nodup → (∀ s ∈ l, s.name ∉ acc) →
    ∃ names, register_sub_studies l acc = .ok names := by
  intro l
  induction l with
  | nil => intro acc _ _; exact ⟨acc, rfl⟩
  | cons s rest ih =>
      intro acc hnd hdis
      simp only [List.map_cons, List.nodup_cons] at hnd
      obtain ⟨hs, hnd2⟩ := hnd
      have hna : s.name ∉ acc := hdis s (List.mem_cons_self _ _)
      rw [show register_sub_studies (s :: rest) acc =
            register_sub_studies rest (acc ++ [s.name]) from by
          simp [register_sub_studies, hna]]
      refine ih (acc ++ [s.name]) hnd2 ?_
      intro t ht hmem
      rcases List.mem_append.mp hmem with hmem | hmem
      · exact hdis t (List.mem_cons_of_mem _ ht) hmem
      · simp only [List.mem_singleton] at hmem
        exact hs (hmem ▸ List.mem_map_of_mem SubStudySpec.name ht)

theorem dvalues_names_eq_dkeys (d : List (String × SubStudySpec))
    (h : ∀ p ∈ d, p.2.name = p.1) :
    (dvalues d).map SubStudySpec.name = dkeys d := by
  unfold dvalues dkeys
  rw [List.map_map]
  exact List.map_congr_left h

/-- C9 (amended): declaring two sub-study bindings with the same name is
not a composition error: the gathered `_sub_study_specs` dict always has
unique keys, each entry keyed by its binding's name, a later binding
silently replacing an earlier one of the same name (gathering `[s1, s2]`
with equal names keeps only `s2`); consequently the duplicate-name check of
`MultiStudy.__init__` can never fire on a gathered registry. -/
theorem duplicate_sub_study_overrides :
    (∀ (bases : List (List SubStudySpec)) (add : List SubStudySpec),
        (dkeys (gather_sub_study_specs bases add)).Nodup ∧
        ∀ p ∈ gather_sub_study_specs bases add, p.2.name = p.1) ∧
    (∀ s1 s2 : SubStudySpec, s1.name = s2.name →
        gather_sub_study_specs [] [s1, s2] = [(s2.name, s2)]) ∧
    (∀ (bases : List (List SubStudySpec)) (add : List SubStudySpec),
        ∃ names,
          register_sub_studies (dvalues (gather_sub_study_specs bases add)) [] =
            .ok names) := by
  refine ⟨fun bases add => ⟨gather_nodup bases add, gather_keyed bases add⟩, ?_, ?_⟩
  · intro s1 s2 h
    simp [gather_sub_study_specs, dupdate, dinsert, h]
  · intro bases add
    refine register_ok_of_nodup _ [] ?_ (by intro s _ hm; cases hm)
    rw [dvalues_names_eq_dkeys _ (gather_keyed bases add)]
    exact gather_nodup bases add

/-- C9 witness: gathering two bindings that share the name "ss1" keeps only
the later one. -/
theorem duplicate_sub_study_overrides_witness :
    gather_sub_study_specs []
        [⟨"ss1", ⟨[], [], []⟩, []⟩,
         ⟨"ss1", ⟨[("w", ⟨"w", none⟩)], [], []⟩, []⟩] =
      [("ss1", ⟨"ss1", ⟨[("w", ⟨"w", none⟩)], [], []⟩, []⟩)] :=
  duplicate_sub_study_overrides.2.1
    ⟨"ss1", ⟨[], [], []⟩, []⟩ ⟨"ss1", ⟨[("w", ⟨"w", none⟩)], [], []⟩, []⟩ rfl

/-- C9 counterexample: two bindings declared with the same name "ss1" are
not rejected — class creation succeeds, the merged registry holds only the
later binding's specs, and instance construction's duplicate check passes. -/
theorem duplicate_sub_study_no_error_cex :
    gather_sub_study_specs []
        [⟨"ss1", ⟨[("x", ⟨"x", none⟩)], [], []⟩, []⟩,
         ⟨"ss1", ⟨[("w", ⟨"w", none⟩)], [], []⟩, []⟩] =
      [("ss1", ⟨"ss1", ⟨[("w", ⟨"w", none⟩)], [], []⟩, []⟩)] ∧
    multi_study_meta_new []
        [⟨"ss1", ⟨[("x", ⟨"x", none⟩)], [], []⟩, []⟩,
         ⟨"ss1", ⟨[("w", ⟨"w", none⟩)], [], []⟩, []⟩] ⟨[], [], []⟩ =
      .ok ([("ss1", ⟨"ss1", ⟨[("w", ⟨"w", none⟩)], [], []⟩, []⟩)],
           ⟨[("ss1_w", ⟨"ss1_w", none⟩)], [], []⟩) ∧
    register_sub_studies [⟨"ss1", ⟨[("w", ⟨"w", none⟩)], [], []⟩, []⟩] [] =
      .ok ["ss1"] :=
  ⟨rfl, rfl, rfl⟩

/-! ### The effective name map -/

/-- C6 (amended): the effective name map is the explicit map together with
an auto-namespaced entry for every *data* spec of the child class whose
name is not a key of the explicit map; unmapped parameter specs get no
entry (they are translated by `SubStudySpec.map` instead). -/
theorem name_map_explicit_plus_auto_data (ss : SubStudySpec) (n : String)
    (hnd : (dkeys ss._name_map).Nodup) :
    dlookup ss.name_map n =
      match dlookup ss._name_map n with
      | some g => some g
      | none =>
          if n ∈ (ss.auto_data_specs).map DataSpec.name
          then some (ss.prefixed n) else none := by
  unfold SubStudySpec.name_map
  rw [dlookup_dupdate ss._name_map _ n hnd]
  cases he : dlookup ss._name_map n with
  | some g => rfl
  | none =>
      have hmap : (ss.auto_data_specs).map (fun s => (s.name, ss.prefixed s.name)) =
          ((ss.auto_data_specs).map DataSpec.name).map
            (fun m => (m, ss.name ++ "_" ++ m)) := by
        rw [List.map_map]
        rfl
      rw [hmap, dlookup_dupdate_mapfun]
      rfl

/-- C6 witness: on the binding ss1 with explicit map {p1: o1} over a child
declaring data spec x, the effective map sends x to its auto-namespaced
form. -/
theorem name_map_explicit_plus_auto_data_witness :
    dlookup
        (SubStudySpec.name_map
          ⟨"ss1", ⟨[("x", ⟨"x", none⟩)], [("o2", ⟨"o2"⟩)], []⟩, [("p1", "o1")]⟩)
        "x" =
      match dlookup ([("p1", "o1")] : List (String × String)) "x" with
      | some g => some g
      | none =>
          if "x" ∈ (SubStudySpec.auto_data_specs
              ⟨"ss1", ⟨[("x", ⟨"x", none⟩)], [("o2", ⟨"o2"⟩)], []⟩,
                [("p1", "o1")]⟩).map DataSpec.name
          then some (SubStudySpec.prefixed
              ⟨"ss1", ⟨[("x", ⟨"x", none⟩)], [("o2", ⟨"o2"⟩)], []⟩,
                [("p1", "o1")]⟩ "x")
          else none :=
  name_map_explicit_plus_auto_data
    ⟨"ss1", ⟨[("x", ⟨"x", none⟩)], [("o2", ⟨"o2"⟩)], []⟩, [("p1", "o1")]⟩
    "x" (by decide)

/-- C6 counterexample: for the binding ss1 over a child class declaring the
parameter spec o2 (not a key of the explicit map {p1: o1}), the claimed
auto entry o2 to ss1_o2 is absent from the name_map property: the property
only auto-adds *data* specs. -/
theorem name_map_omits_param_specs_cex :
    dlookup
        (SubStudySpec.name_map ⟨"ss1", ⟨[], [("o2", ⟨"o2"⟩)], []⟩, [("p1", "o1")]⟩)
        "o2" = none ∧
    "o2" ∈ dkeys (⟨[], [("o2", ⟨"o2"⟩)], []⟩ : StudyClass).param_specs ∧
    dlookup ([("p1", "o1")] : List (String × String)) "o2" = none :=
  ⟨rfl, by decide, rfl⟩

/-! ### The validation pass -/

theorem validate_entries_ok :
    ∀ (entries : List (String × String)) (ssname : String) (cN gN : List String),
    validate_entries ssname cN gN entries = .ok () ↔
      ∀ e ∈ entries, e.1 ∈ cN ∧ e.2 ∈ gN := by
  intro entries
  induction entries with
  | nil =>
      intro ssname cN gN
      simp [validate_entries]
  | cons e rest ih =>
      intro ssname cN gN
      constructor
      · intro h
        by_cases h1 : e.1 ∈ cN
        · by_cases h2 : e.2 ∈ gN
          · have hstep : validate_entry ssname cN gN e = .ok () := by
              simp [validate_entry, h1, h2]
            rw [show validate_entries ssname cN gN (e :: rest) =
                  validate_entries ssname cN gN rest from by
                simp [validate_entries, hstep]] at h
            intro e2 he2
            rcases List.mem_cons.mp he2 with rfl | he2
            · exact ⟨h1, h2⟩
            · exact (ih ssname cN gN).mp h e2 he2
          · have hstep : validate_entry ssname cN gN e =
                .error (.unknownGlobalName e.2 ssname) := by
              simp [validate_entry, h1, h2]
            rw [show validate_entries ssname cN gN (e :: rest) =
                  .error (.unknownGlobalName e.2 ssname) from by
                simp [validate_entries, hstep]] at h
            cases h
        · have hstep : validate_entry ssname cN gN e =
              .error (.unknownLocalName e.1 ssname) := by
            simp [validate_entry, h1]
          rw [show validate_entries ssname cN gN (e :: rest) =
                .error (.unknownLocalName e.1 ssname) from by
              simp [validate_entries, hstep]] at h
          cases h
      · intro h
        have h1 := (h e (List.mem_cons_self _ _)).1
        have h2 := (h e (List.mem_cons_self _ _)).2
        have hstep : validate_entry ssname cN gN e = .ok () := by
          simp [validate_entry, h1, h2]
        rw [show validate_entries ssname cN gN (e :: rest) =
              validate_entries ssname cN gN rest from by
            simp [validate_entries, hstep]]
        exact (ih ssname cN gN).mpr (fun e2 he2 => h e2 (List.mem_cons_of_mem _ he2))

theorem validate_entries_error_config :
    ∀ (entries : List (String × String)) (ssname : String) (cN gN : List String)
      (err : MultiErr),
    validate_entries ssname cN gN entries = .error err → err.isConfig = true := by
  intro entries
  induction entries with
  | nil =>
      intro ssname cN gN err h
      cases h
  | cons e rest ih =>
      intro ssname cN gN err h
      by_cases h1 : e.1 ∈ cN
      · by_cases h2 : e.2 ∈ gN
        · have hstep : validate_entry ssname cN gN e = .ok () := by
            simp [validate_entry, h1, h2]
          rw [show validate_entries ssname cN gN (e :: rest) =
                validate_entries ssname cN gN rest from by
              simp [validate_entries, hstep]] at h
          exact ih ssname cN gN err h
        · have hstep : validate_entry ssname cN gN e =
              .error (.unknownGlobalName e.2 ssname) := by
            simp [validate_entry, h1, h2]
          rw [show validate_entries ssname cN gN (e :: rest) =
                .error (.unknownGlobalName e.2 ssname) from by
              simp [validate_entries, hstep]] at h
          cases h
          rfl
      · have hstep : validate_entry ssname cN gN e =
            .error (.unknownLocalName e.1 ssname) := by
          simp [validate_entry, h1]
        rw [show validate_entries ssname cN gN (e :: rest) =
              .error (.unknownLocalName e.1 ssname) from by
            simp [validate_entries, hstep]] at h
        cases h
        rfl

theorem validate_all_ok :
    ∀ (l : List SubStudySpec) (gN : List String),
    validate_all gN l = .ok () ↔
      ∀ ss ∈ l, ∀ e ∈ ss._name_map,
        e.1 ∈ spec_names ss.study_class ∧ e.2 ∈ gN := by
  intro l
  induction l with
  | nil =>
      intro gN
      simp [validate_all]
  | cons ss rest ih =>
      intro gN
      constructor
      · intro h
        cases hv : validate_entries ss.name (spec_names ss.study_class) gN
            ss._name_map with
        | error err =>
            rw [show validate_all gN (ss :: rest) = .error err from by
                simp [validate_all, hv]] at h
            cases h
        | ok u =>
            obtain ⟨⟩ := u
            rw [show validate_all gN (ss :: rest) = validate_all gN rest from by
                simp [validate_all, hv]] at h
            intro ss2 hss2
            rcases List.mem_cons.mp hss2 with rfl | hss2
            · exact (validate_entries_ok _ _ _ _).mp hv
            · exact (ih gN).mp h ss2 hss2
      · intro h
        have hv : validate_entries ss.name (spec_names ss.study_class) gN
            ss._name_map = .ok () :=
          (validate_entries_ok _ _ _ _).mpr (h ss (List.mem_cons_self _ _))
        rw [show validate_all gN (ss :: rest) = validate_all gN rest from by
            simp [validate_all, hv]]
        exact (ih gN).mpr (fun ss2 hss2 => h ss2 (List.mem_cons_of_mem _ hss2))

theorem validate_all_error_config :
    ∀ (l : List SubStudySpec) (gN : List String) (err : MultiErr),
    validate_all gN l = .error err → err.isConfig = true := by
  intro l
  induction l with
  | nil =>
      intro gN err h
      cases h
  | cons ss rest ih =>
      intro gN err h
      cases hv : validate_entries ss.name (spec_names ss.study_class) gN
          ss._name_map with
      | error err2 =>
          rw [show validate_all gN (ss :: rest) = .error err2 from by
              simp [validate_all, hv]] at h
          cases h
          exact validate_entries_error_config _ _ _ _ _ hv
      | ok u =>
          obtain ⟨⟩ := u
          rw [show validate_all gN (ss :: rest) = validate_all gN rest from by
              simp [validate_all, hv]] at h
          exact ih gN err h

/-- C5: on a successful composite class creation, every key of every
gathered binding's explicit map names a spec of the binding's child class
and every value names a spec of the fully merged class; conversely, if any
gathered binding has an entry whose key is not a child spec name or whose
value is not a spec name of the merged class, class creation fails with a
ConfigurationError (an `ArcanaUsageError`) at type-definition time. -/
theorem name_map_validated_at_class_creation :
    (∀ (bases : List (List SubStudySpec)) (add : List SubStudySpec)
        (cls0 : StudyClass) (subs : List (String × SubStudySpec))
        (cls1 : StudyClass),
        multi_study_meta_new bases add cls0 = .ok (subs, cls1) →
        ∀ ss ∈ dvalues subs, ∀ e ∈ ss._name_map,
          e.1 ∈ spec_names ss.study_class ∧ e.2 ∈ spec_names cls1) ∧
    (∀ (bases : List (List SubStudySpec)) (add : List SubStudySpec)
        (cls0 : StudyClass),
        (∃ ss ∈ dvalues (gather_sub_study_specs bases add), ∃ e ∈ ss._name_map,
            e.1 ∉ spec_names ss.study_class ∨
            e.2 ∉ spec_names
              ((dvalues (gather_sub_study_specs bases add)).foldl merge_sub cls0)) →
        ∃ err, multi_study_meta_new bases add cls0 = .error err ∧
          err.isConfig = true) := by
  constructor
  · intro bases add cls0 subs cls1 hok ss hss e he
    simp only [multi_study_meta_new] at hok
    cases hv : validate_all
        (spec_names ((dvalues (gather_sub_study_specs bases add)).foldl merge_sub cls0))
        (dvalues (gather_sub_study_specs bases add)) with
    | error err =>
        rw [hv] at hok
        cases hok
    | ok u =>
        obtain ⟨⟩ := u
        rw [hv] at hok
        cases hok
        exact (validate_all_ok _ _).mp hv ss hss e he
  · intro bases add cls0 hviol
    cases hv : validate_all
        (spec_names ((dvalues (gather_sub_study_specs bases add)).foldl merge_sub cls0))
        (dvalues (gather_sub_study_specs bases add)) with
    | ok u =>
        exfalso
        obtain ⟨⟩ := u
        have hall := (validate_all_ok _ _).mp hv
        obtain ⟨ss, hss, e, he, hbad⟩ := hviol
        rcases hbad with hbad | hbad
        · exact hbad (hall ss hss e he).1
        · exact hbad (hall ss hss e he).2
    | error err =>
        refine ⟨err, ?_, validate_all_error_config _ _ err hv⟩
        simp only [multi_study_meta_new]
        rw [hv]

/-- C5 witness: a binding whose explicit map entry (p1, o1) names a local
spec p1 absent from its child class makes class creation fail with a
ConfigurationError. -/
theorem name_map_validated_at_class_creation_witness :
    ∃ err, multi_study_meta_new []
        [⟨"ss1", ⟨[], [], []⟩, [("p1", "o1")]⟩] ⟨[], [], []⟩ =
      .error err ∧ err.isConfig = true :=
  name_map_validated_at_class_creation.2 []
    [⟨"ss1", ⟨[], [], []⟩, [("p1", "o1")]⟩] ⟨[], [], []⟩ (by decide)

/-! ### The merge loop -/

theorem add_data_spec_facts (n : String) (c : StudyClass) (d : DataSpec) :
    (add_data_spec n c d).param_specs = c.param_specs ∧
    dkeys c.data_specs ⊆ dkeys (add_data_spec n c d).data_specs ∧
    (n ++ "_" ++ d.name) ∈ dkeys (add_data_spec n c d).data_specs ∧
    ((dkeys c.data_specs).Nodup → (dkeys (add_data_spec n c d).data_specs).Nodup) := by
  simp only [add_data_spec]
  by_cases h : (n ++ "_" ++ d.name) ∈ dkeys c.data_specs
  · rw [if_pos h]
    exact ⟨rfl, fun x hx => hx, h, fun hn => hn⟩
  · rw [if_neg h]
    cases hpg : d.pipeline_getter with
    | some pg =>
        exact ⟨rfl, dkeys_sub_dinsert _ _ _, mem_dkeys_dinsert _ _ _,
          fun hn => nodup_dinsert _ _ _ hn⟩
    | none =>
        exact ⟨rfl, dkeys_sub_dinsert _ _ _, mem_dkeys_dinsert _ _ _,
          fun hn => nodup_dinsert _ _ _ hn⟩

theorem add_param_spec_facts (n : String) (c : StudyClass) (p : ParamSpec) :
    (add_param_spec n c p).data_specs = c.data_specs ∧
    dkeys c.param_specs ⊆ dkeys (add_param_spec n c p).param_specs ∧
    (n ++ "_" ++ p.name) ∈ dkeys (add_param_spec n c p).param_specs ∧
    ((dkeys c.param_specs).Nodup →
        (dkeys (add_param_spec n c p).param_specs).Nodup) := by
  simp only [add_param_spec]
  by_cases h : (n ++ "_" ++ p.name) ∈ dkeys c.param_specs
  · rw [if_pos h]
    exact ⟨rfl, fun x hx => hx, h, fun hn => hn⟩
  · rw [if_neg h]
    exact ⟨rfl, dkeys_sub_dinsert _ _ _, mem_dkeys_dinsert _ _ _,
      fun hn => nodup_dinsert _ _ _ hn⟩

theorem foldl_add_data_facts (n : String) :
    ∀ (l : List DataSpec) (c : StudyClass),
    ((l.foldl (add_data_spec n) c).param_specs = c.param_specs) ∧
    dkeys c.data_specs ⊆ dkeys ((l.foldl (add_data_spec n) c).data_specs) ∧
    (∀ d ∈ l, (n ++ "_" ++ d.name) ∈ dkeys ((l.foldl (add_data_spec n) c).data_specs)) ∧
    ((dkeys c.data_specs).Nodup →
        (dkeys ((l.foldl (add_data_spec n) c).data_specs)).Nodup) := by
  intro l
  induction l with
  | nil =>
      intro c
      exact ⟨rfl, fun x hx => hx, (by intro d hd; cases hd), fun hn => hn⟩
  | cons d0 rest ih =>
      intro c
      obtain ⟨f1, f2, f3, f4⟩ := add_data_spec_facts n c d0
      obtain ⟨g1, g2, g3, g4⟩ := ih (add_data_spec n c d0)
      refine ⟨by rw [List.foldl_cons, g1, f1], fun x hx => g2 (f2 hx), ?_,
        fun hn => g4 (f4 hn)⟩
      intro d hd
      rcases List.mem_cons.mp hd with rfl | hd
      · exact g2 f3
      · exact g3 d hd

theorem foldl_add_param_facts (n : String) :
    ∀ (l : List ParamSpec) (c : StudyClass),
    ((l.foldl (add_param_spec n) c).data_specs = c.data_specs) ∧
    dkeys c.param_specs ⊆ dkeys ((l.foldl (add_param_spec n) c).param_specs) ∧
    (∀ p ∈ l, (n ++ "_" ++ p.name) ∈ dkeys ((l.foldl (add_param_spec n) c).param_specs)) ∧
    ((dkeys c.param_specs).Nodup →
        (dkeys ((l.foldl (add_param_spec n) c).param_specs)).Nodup) := by
  intro l
  induction l with
  | nil =>
      intro c
      exact ⟨rfl, fun x hx => hx, (by intro p hp; cases hp), fun hn => hn⟩
  | cons p0 rest ih =>
      intro c
      obtain ⟨f1, f2, f3, f4⟩ := add_param_spec_facts n c p0
      obtain ⟨g1, g2, g3, g4⟩ := ih (add_param_spec n c p0)
      refine ⟨by rw [List.foldl_cons, g1, f1], fun x hx => g2 (f2 hx), ?_,
        fun hn => g4 (f4 hn)⟩
      intro p hp
      rcases List.mem_cons.mp hp with rfl | hp
      · exact g2 f3
      · exact g3 p hp

theorem merge_sub_facts (c : StudyClass) (ss : SubStudySpec) :
    dkeys c.data_specs ⊆ dkeys ((merge_sub c ss).data_specs) ∧
    dkeys c.param_specs ⊆ dkeys ((merge_sub c ss).param_specs) ∧
    (∀ d ∈ ss.auto_data_specs,
        ss.prefixed d.name ∈ dkeys ((merge_sub c ss).data_specs)) ∧
    (∀ p ∈ ss.auto_param_specs,
        ss.prefixed p.name ∈ dkeys ((merge_sub c ss).param_specs)) ∧
    ((dkeys c.data_specs).Nodup → (dkeys ((merge_sub c ss).data_specs)).Nodup) ∧
    ((dkeys c.param_specs).Nodup → (dkeys ((merge_sub c ss).param_specs)).Nodup) := by
  obtain ⟨d1, d2, d3, d4⟩ := foldl_add_data_facts ss.name ss.auto_data_specs c
  obtain ⟨p1, p2, p3, p4⟩ := foldl_add_param_facts ss.name ss.auto_param_specs
      ((ss.auto_data_specs).foldl (add_data_spec ss.name) c)
  unfold merge_sub
  rw [d1] at p2 p4
  refine ⟨?_, p2, ?_, ?_, ?_, p4⟩
  · rw [p1]
    exact d2
  · intro d hd
    rw [p1]
    exact d3 d hd
  · intro p hp
    exact p3 p hp
  · intro hn
    rw [p1]
    exact d4 hn

theorem merge_all_facts :
    ∀ (specs : List SubStudySpec) (c : StudyClass),
    dkeys c.data_specs ⊆ dkeys ((specs.foldl merge_sub c).data_specs) ∧
    dkeys c.param_specs ⊆ dkeys ((specs.foldl merge_sub c).param_specs) ∧
    (∀ ss ∈ specs, ∀ d ∈ ss.auto_data_specs,
        ss.prefixed d.name ∈ dkeys ((specs.foldl merge_sub c).data_specs)) ∧
    (∀ ss ∈ specs, ∀ p ∈ ss.auto_param_specs,
        ss.prefixed p.name ∈ dkeys ((specs.foldl merge_sub c).param_specs)) ∧
    ((dkeys c.data_specs).Nodup → (dkeys ((specs.foldl merge_sub c).data_specs)).Nodup) ∧
    ((dkeys c.param_specs).Nodup →
        (dkeys ((specs.foldl merge_sub c).param_specs)).Nodup) := by
  intro specs
  induction specs with
  | nil =>
      intro c
      exact ⟨fun x hx => hx, fun x hx => hx, (by intro ss hss; cases hss),
        (by intro ss hss; cases hss), fun hn => hn, fun hn => hn⟩
  | cons s0 rest ih =>
      intro c
      obtain ⟨f1, f2, f3, f4, f5, f6⟩ := merge_sub_facts c s0
      obtain ⟨g1, g2, g3, g4, g5, g6⟩ := ih (merge_sub c s0)
      refine ⟨fun x hx => g1 (f1 hx), fun x hx => g2 (f2 hx), ?_, ?_,
        fun hn => g5 (f5 hn), fun hn => g6 (f6 hn)⟩
      · intro ss hss d hd
        rcases List.mem_cons.mp hss with rfl | hss
        · exact g1 (f3 d hd)
        · exact g3 ss hss d hd
      · intro ss hss p hp
        rcases List.mem_cons.mp hss with rfl | hss
        · exact g2 (f4 p hp)
        · exact g4 ss hss p hp

/-- C1 (amended): on a successful composite class creation from registries
with unique keys, every spec name of every gathered binding's child class
appears in the merged class, under its explicit map entry when mapped and
under the auto-namespaced child-prefixed name otherwise, and the merged
data-spec registry and parameter-spec registry each keep unique keys.  (A
data-spec name may still coincide with a parameter-spec name, so a name can
appear in both registries — see the counterexample.) -/
theorem merged_class_covers_sub_specs :
    ∀ (bases : List (List SubStudySpec)) (add : List SubStudySpec)
      (cls0 : StudyClass) (subs : List (String × SubStudySpec))
      (cls1 : StudyClass),
    (dkeys cls0.data_specs).Nodup → (dkeys cls0.param_specs).Nodup →
    multi_study_meta_new bases add cls0 = .ok (subs, cls1) →
    (∀ ss ∈ dvalues subs, StudyClass.wf ss.study_class →
        ∀ n ∈ spec_names ss.study_class, resolvedName ss n ∈ spec_names cls1) ∧
    (dkeys cls1.data_specs).Nodup ∧ (dkeys cls1.param_specs).Nodup := by
  intro bases add cls0 subs cls1 hnd hnp hok
  simp only [multi_study_meta_new] at hok
  cases hv : validate_all
      (spec_names ((dvalues (gather_sub_study_specs bases add)).foldl merge_sub cls0))
      (dvalues (gather_sub_study_specs bases add)) with
  | error err =>
      rw [hv] at hok
      cases hok
  | ok u =>
      obtain ⟨⟩ := u
      rw [hv] at hok
      cases hok
      obtain ⟨_, _, w3, w4, w5, w6⟩ :=
        merge_all_facts (dvalues (gather_sub_study_specs bases add)) cls0
      refine ⟨?_, w5 hnd, w6 hnp⟩
      intro ss hss hwf n hn
      unfold resolvedName
      cases he : dlookup ss._name_map n with
      | some g =>
          have hmem := dlookup_mem _ _ _ he
          exact ((validate_all_ok _ _).mp hv ss hss (n, g) hmem).2
      | none =>
          obtain ⟨_, _, hwf3, hwf4⟩ := hwf
          unfold spec_names at hn ⊢
          rcases List.mem_append.mp hn with hn | hn
          · obtain ⟨pr, hpr, hpr2⟩ := List.mem_map.mp hn
            have hname : pr.2.name = n := (hwf3 pr hpr).trans hpr2
            have hauto : pr.2 ∈ ss.auto_data_specs := by
              unfold SubStudySpec.auto_data_specs
              rw [List.mem_filter]
              refine ⟨List.mem_map_of_mem Prod.snd hpr, ?_⟩
              rw [hname, he]
              rfl
            have hmem2 := w3 ss hss pr.2 hauto
            rw [hname] at hmem2
            exact List.mem_append.mpr (Or.inl hmem2)
          · obtain ⟨pr, hpr, hpr2⟩ := List.mem_map.mp hn
            have hname : pr.2.name = n := (hwf4 pr hpr).trans hpr2
            have hauto : pr.2 ∈ ss.auto_param_specs := by
              unfold SubStudySpec.auto_param_specs
              rw [List.mem_filter]
              refine ⟨List.mem_map_of_mem Prod.snd hpr, ?_⟩
              rw [hname, he]
              rfl
            have hmem2 := w4 ss hss pr.2 hauto
            rw [hname] at hmem2
            exact List.mem_append.mpr (Or.inr hmem2)

/-- C1 witness: the binding ss1 with explicit map {p1: o1} over a child
with data spec x and parameter specs p1, o2, merged into a parent declaring
o1: every child spec is exposed (x as ss1_x, p1 as o1, o2 as ss1_o2), both
registries keep unique keys, and the parent exposes ss1_o2 but no bare
o2. -/
theorem merged_class_covers_sub_specs_witness :
    resolvedName
        ⟨"ss1", ⟨[("x", ⟨"x", none⟩)], [("p1", ⟨"p1"⟩), ("o2", ⟨"o2"⟩)], []⟩,
          [("p1", "o1")]⟩ "o2" ∈
      spec_names ⟨[("ss1_x", ⟨"ss1_x", none⟩)],
        [("o1", ⟨"o1"⟩), ("ss1_o2", ⟨"ss1_o2"⟩)], []⟩ ∧
    (dkeys ([("ss1_x", (⟨"ss1_x", none⟩ : DataSpec))])).Nodup ∧
    (dkeys ([("o1", (⟨"o1"⟩ : ParamSpec)), ("ss1_o2", ⟨"ss1_o2"⟩)])).Nodup ∧
    "ss1_o2" ∈ spec_names ⟨[("ss1_x", ⟨"ss1_x", none⟩)],
        [("o1", ⟨"o1"⟩), ("ss1_o2", ⟨"ss1_o2"⟩)], []⟩ ∧
    "o2" ∉ spec_names ⟨[("ss1_x", ⟨"ss1_x", none⟩)],
        [("o1", ⟨"o1"⟩), ("ss1_o2", ⟨"ss1_o2"⟩)], []⟩ := by
  have h := merged_class_covers_sub_specs []
    [⟨"ss1", ⟨[("x", ⟨"x", none⟩)], [("p1", ⟨"p1"⟩), ("o2", ⟨"o2"⟩)], []⟩,
      [("p1", "o1")]⟩]
    ⟨[], [("o1", ⟨"o1"⟩)], []⟩
    [("ss1", ⟨"ss1", ⟨[("x", ⟨"x", none⟩)], [("p1", ⟨"p1"⟩), ("o2", ⟨"o2"⟩)], []⟩,
      [("p1", "o1")]⟩)]
    ⟨[("ss1_x", ⟨"ss1_x", none⟩)], [("o1", ⟨"o1"⟩), ("ss1_o2", ⟨"ss1_o2"⟩)], []⟩
    (by decide) (by decide) rfl
  refine ⟨?_, h.2.1, h.2.2, by decide, by decide⟩
  exact h.1 _ (by decide) ⟨by decide, by decide, by decide, by decide⟩ "o2" (by decide)

/-- C1 counterexample: a parent class declaring the parameter spec ss1_d,
composed with a binding ss1 over a child declaring the data spec d,
successfully produces a merged class in which the name ss1_d appears twice:
once among the data specs (the auto-namespaced copy of d, admitted because
the merge only checks the data-spec registry) and once among the parameter
specs — refuting the claim that no spec name appears twice. -/
theorem data_param_name_collision_cex :
    multi_study_meta_new [] [⟨"ss1", ⟨[("d", ⟨"d", none⟩)], [], []⟩, []⟩]
        ⟨[], [("ss1_d", ⟨"ss1_d"⟩)], []⟩ =
      .ok ([("ss1", ⟨"ss1", ⟨[("d", ⟨"d", none⟩)], [], []⟩, []⟩)],
           ⟨[("ss1_d", ⟨"ss1_d", none⟩)], [("ss1_d", ⟨"ss1_d"⟩)], []⟩) ∧
    ¬ (spec_names ⟨[("ss1_d", ⟨"ss1_d", none⟩)], [("ss1_d", ⟨"ss1_d"⟩)], []⟩).Nodup :=
  ⟨rfl, by decide⟩

end Arcana
